import Mathlib

set_option maxRecDepth 8192

/-!
Verification development for the VHDL testbench generator (`src/index.js`).

The generator has two passes over the parsed VHDL source:
a first pass that extracts per-entity metadata (use clauses, port head,
and an insertion-ordered table of ports with type bounds), and a second
pass that interprets directive line comments (`testbench`, `sync`,
`begin`, `every`, `set`, `end`) as a state machine appending VHDL text
to an output buffer, which is finally normalized (blank-line collapsing,
trimming, one trailing newline) before being written.

The definitions below are shallow embeddings of the corresponding
JavaScript functions and statements.  Strings are modelled by `String`
or `List Char`; JavaScript `undefined` flowing into template literals
or into `||` defaults is modelled explicitly (`jsStr`, `jsOr`);
uncaught exceptions (failed `assert.ok`, calling `undefined` as a
function, `Object.entries` applied to `undefined`) are modelled by the
`Except.error` channel of the step function, since any such exception
aborts the whole run before the output file is written.
-/

namespace VhdlTbGen

/-! ## Character and string utilities (JS semantics) -/

/-- JS `\w` word character: ASCII letters, digits, underscore. -/
def isWordChar (c : Char) : Bool := c.isAlpha || c.isDigit || c = '_'

/-- JS whitespace as used by `String.prototype.trim` and `\s`
(ASCII whitespace plus NBSP and BOM; other Unicode space separators do
not occur in the generated text). -/
def isWSChar (c : Char) : Bool :=
  c = ' ' || c = '\t' || c = '\n' || c = '\r' || c = '\x0b' || c = '\x0c' ||
  c = '\u00A0' || c = '\uFEFF'

/-- Boolean list-levels test that `p` is an initial segment of `l`
(models JS `String.prototype.startsWith`). -/
def prefixOfList : List Char → List Char → Bool
  | [], _ => true
  | _ :: _, [] => false
  | p :: ps, c :: cs => p = c && prefixOfList ps cs

/-- Models JS `text.startsWith(p)`. -/
def startsWithStr (p t : String) : Bool := prefixOfList p.toList t.toList

/-- Models JS `String.prototype.split(sep)` for a one-character
separator: split at every occurrence, keeping empty pieces. -/
def splitChar (c : Char) : List Char → List (List Char)
  | [] => [[]]
  | x :: xs =>
    match splitChar c xs with
    | [] => [[]]
    | h :: t => if x = c then [] :: h :: t else (x :: h) :: t

/-- Models JS `String.prototype.trimStart` (on char lists). -/
def trimLeft (l : List Char) : List Char := l.dropWhile isWSChar

/-- Prepend `c` to an already right-trimmed tail: when the whole tail
was trimmed away, a whitespace `c` is dropped as well. -/
def consTrimEnd (c : Char) : List Char → List Char
  | [] => if isWSChar c then [] else [c]
  | x :: xs => c :: x :: xs

/-- Models JS `String.prototype.trimEnd` (on char lists): remove the
longest whitespace suffix. -/
def trimRight : List Char → List Char
  | [] => []
  | c :: cs => consTrimEnd c (trimRight cs)

/-- Models JS `String.prototype.trim` (on char lists). -/
def jsTrim (l : List Char) : List Char := trimRight (trimLeft l)

/-- Models JS `String.prototype.trim` on `String`. -/
def jsTrimStr (s : String) : String := (jsTrim s.toList).asString

/-- JS template-literal rendering of a possibly-`undefined` string:
`undefined` becomes the literal text `"undefined"`. -/
def jsStr : Option String → String
  | some s => s
  | none => "undefined"

/-- JS `x || d` for a possibly-`undefined` string `x`: `undefined` and
the empty string are falsy and fall back to `d`. -/
def jsOr (o : Option String) (d : String) : String :=
  match o with
  | some s => if s = "" then d else s
  | none => d

/-- JS object property read `m[k]` on a string-keyed record, as first
match in an insertion-ordered association list. -/
def jsLookup (m : List (String × α)) (k : String) : Option α :=
  (m.find? (fun p => p.1 = k)).map (·.2)

/-- Models `Array.prototype.join('')`: concatenation of string pieces. -/
def catStrs : List String → String
  | [] => ""
  | s :: rest => s ++ catStrs rest

/-- Models `Array.prototype.join(',')`. -/
def joinComma : List String → String
  | [] => ""
  | [s] => s
  | s :: rest => s ++ "," ++ joinComma rest

/-- Decimal digit character (kernel-friendly). -/
def digitChar (d : Nat) : Char :=
  if d = 0 then '0' else if d = 1 then '1' else if d = 2 then '2'
  else if d = 3 then '3' else if d = 4 then '4' else if d = 5 then '5'
  else if d = 6 then '6' else if d = 7 then '7' else if d = 8 then '8' else '9'

/-- Fueled decimal rendering of a natural number. -/
def natToStrAux : Nat → Nat → List Char
  | 0, _ => []
  | fuel + 1, n => if n < 10 then [digitChar n] else natToStrAux fuel (n / 10) ++ [digitChar (n % 10)]

/-- Decimal rendering of a natural number, models JS `${i}` for the
loop counter (kernel-friendly, no well-founded recursion). -/
def natToStr (n : Nat) : String := (natToStrAux (n + 1) n).asString

/-! ## Type Bound Resolver (`getTypeBounds`, src/index.js lines 14-56) -/

/-- Result of the Type Bound Resolver: textual bounds of the port
domain plus a converter from an index expression to a value
expression of the port type. -/
structure Bounds where
  low : String
  high : String
  converter : String → String

/-- A `simple_range` node: texts of its three children
(left bound, direction keyword, right bound). -/
structure SimpleRange where
  left : String
  kind : String
  right : String
deriving DecidableEq

/-- The degraded bounds returned for unknown types and rangeless
vector types (after a console warning, which is I/O and not modelled):
empty bounds and a converter that always returns the empty string. -/
def emptyBounds : Bounds :=
  { low := "", high := "", converter := fun _ => "" }

/-- `type.match(/^\w+/)?.[0]`: the leading run of word characters of
the type text, or `none` when the text does not start with one. -/
def leadingWordChars (t : String) : Option String :=
  let w := t.toList.takeWhile isWordChar
  if w = [] then none else some w.asString

/-- The scalar branch of `getTypeBounds` (`bit`, `std_logic`,
`std_ulogic`). -/
def scalarBounds (type : String) : Bounds :=
  { low := "0", high := "1", converter := fun i => type ++ "\x27val(" ++ i ++ ")" }

/-- The vector branch of `getTypeBounds` (`std_logic_vector`,
`std_ulogic_vector`); degrades to `emptyBounds` when no range node is
present. -/
def vectorBounds (name : String) (range : Option SimpleRange) : Bounds :=
  match range with
  | none => emptyBounds
  | some r =>
    let reversed := r.kind = "to"
    let length := "((" ++ (if reversed then r.right else r.left) ++ ") - ("
      ++ (if reversed then r.left else r.right) ++ ") + 1)"
    { low := "0"
      high := "2 ** " ++ length ++ " - 1"
      converter := fun i => name ++ "(to_unsigned(" ++ i ++ ", " ++ length ++ "))" }

/-- src/index.js `getTypeBounds(type, range)`: switch on the leading
word of the type text; unknown names and rangeless vectors fall
through to the degraded empty bounds. -/
def getTypeBounds (type : String) (range : Option SimpleRange) : Bounds :=
  match leadingWordChars type with
  | some "bit" => scalarBounds type
  | some "std_logic" => scalarBounds type
  | some "std_ulogic" => scalarBounds type
  | some "std_ulogic_vector" => vectorBounds "std_ulogic_vector" range
  | some "std_logic_vector" => vectorBounds "std_logic_vector" range
  | _ => emptyBounds

/-- The recognized type names of the `getTypeBounds` switch. -/
def knownTypeNames : List String :=
  ["bit", "std_logic", "std_ulogic", "std_ulogic_vector", "std_logic_vector"]

/-! ## Arithmetic evaluator for emitted bound expressions

The bounds emitted by `getTypeBounds` are VHDL integer expressions in
text form (`"0"`, `"1"`, `"2 ** ((7) - (0) + 1) - 1"`).  To state
spec-level properties such as "domain size 256" and "width equivalent
to 8" we evaluate such expressions with a small evaluator for the
grammar the resolver emits: decimal literals, parentheses, `+`, `-`
and `**` (exponentiation binding tighter than addition). -/

inductive ATok where
  | num (n : Int)
  | plus
  | minus
  | pow
  | lpar
  | rpar
deriving DecidableEq

/-- Fueled tokenizer for arithmetic expression text. -/
def arithToks : Nat → List Char → Option (List ATok)
  | 0, _ => none
  | _ + 1, [] => some []
  | fuel + 1, c :: cs =>
    if c = ' ' then arithToks fuel cs
    else if c = '(' then (arithToks fuel cs).map (ATok.lpar :: ·)
    else if c = ')' then (arithToks fuel cs).map (ATok.rpar :: ·)
    else if c = '+' then (arithToks fuel cs).map (ATok.plus :: ·)
    else if c = '*' then
      match cs with
      | '*' :: cs2 => (arithToks fuel cs2).map (ATok.pow :: ·)
      | _ => none
    else if c = '-' then (arithToks fuel cs).map (ATok.minus :: ·)
    else if c.isDigit then
      let ds := (c :: cs).takeWhile Char.isDigit
      let v : Int := Int.ofNat (ds.foldl (fun a d => a * 10 + (d.toNat - 48)) 0)
      (arithToks fuel ((c :: cs).dropWhile Char.isDigit)).map (ATok.num v :: ·)
    else none

/-- Operator precedence for the shunting-yard conversion. -/
def aPrec : ATok → Nat
  | ATok.pow => 2
  | _ => 1

/-- Pop operators of precedence at least `p` onto the output. -/
def popGE (p : Nat) : List ATok → List ATok → (List ATok × List ATok)
  | [], out => ([], out)
  | t :: stk, out =>
    match t with
    | ATok.lpar => (t :: stk, out)
    | _ => if aPrec t ≥ p then popGE p stk (t :: out) else (t :: stk, out)

/-- Pop operators until the matching opening parenthesis. -/
def popToLpar : List ATok → List ATok → Option (List ATok × List ATok)
  | [], _ => none
  | t :: stk, out =>
    match t with
    | ATok.lpar => some (stk, out)
    | _ => popToLpar stk (t :: out)

/-- Shunting-yard conversion of the token list to reverse Polish
order (output accumulated reversed). -/
def shuntAux : List ATok → List ATok → List ATok → Option (List ATok)
  | [], stk, out =>
    if stk.any (· = ATok.lpar) then none else some (stk ++ out)
  | t :: ts, stk, out =>
    match t with
    | ATok.num n => shuntAux ts stk (ATok.num n :: out)
    | ATok.lpar => shuntAux ts (ATok.lpar :: stk) out
    | ATok.rpar =>
      match popToLpar stk out with
      | some (stk2, out2) => shuntAux ts stk2 out2
      | none => none
    | op =>
      let (stk2, out2) := popGE (aPrec op) stk out
      shuntAux ts (op :: stk2) out2

/-- Evaluate a reversed reverse-Polish token list with a value stack. -/
def evalRPN : List ATok → List Int → Option Int
  | [], [v] => some v
  | [], _ => none
  | t :: ts, vs =>
    match t, vs with
    | ATok.num n, _ => evalRPN ts (n :: vs)
    | ATok.plus, b :: a :: rest => evalRPN ts ((a + b) :: rest)
    | ATok.minus, b :: a :: rest => evalRPN ts ((a - b) :: rest)
    | ATok.pow, b :: a :: rest => evalRPN ts ((a ^ b.toNat) :: rest)
    | _, _ => none

/-- Evaluate an emitted arithmetic expression string to an integer. -/
def evalArith (s : String) : Option Int :=
  match arithToks (s.length + 1) s.toList with
  | none => none
  | some ts =>
    match shuntAux ts [] [] with
    | none => none
    | some rout => evalRPN rout.reverse []

/-- Domain size described by a `Bounds` value: number of integers from
`low` to `high` inclusive, when both bounds evaluate. -/
def domainSize (b : Bounds) : Option Int :=
  match evalArith b.low, evalArith b.high with
  | some l, some h => some (h - l + 1)
  | _, _ => none

/-! ## First pass: entity port table (src/index.js lines 98-113)

For every `interface_declaration` the code reads the identifier list,
mode and type, resolves the bounds once, and stores
`{mode, type, ...bounds}` under each (trimmed) port name with
`entityPins[name][port.trim()] = ...`.  JavaScript string-keyed
objects preserve first-insertion order of keys (assigning to an
existing key keeps its position and replaces the value), which is what
`insertPin` implements. -/

/-- The per-port record stored in the entity pin table:
`{mode, type, ...getTypeBounds(...)}`. -/
structure PortInfo where
  mode : String
  type : String
  low : String
  high : String
  converter : String → String

/-- One `interface_declaration` group: comma-joined names sharing one
mode and type (the unsupported-mode assertion of line 106 is a fatal
error on malformed input and is outside the claims; groups here are in
the accepted simple-mode form). -/
structure InterfaceGroup where
  names : List String
  mode : String
  type : String
  range : Option SimpleRange

/-- The record stored for every name of a group (bounds resolved once
per group). -/
def infoOf (g : InterfaceGroup) : PortInfo :=
  let b := getTypeBounds g.type g.range
  { mode := g.mode, type := g.type, low := b.low, high := b.high, converter := b.converter }

/-- JS object property write `m[k] = v`: replace in place when the key
exists (keeping its first-seen position), otherwise append. -/
def insertPin (m : List (String × PortInfo)) (k : String) (v : PortInfo) :
    List (String × PortInfo) :=
  if m.any (fun p => p.1 = k) then
    m.map (fun p => if p.1 = k then (k, v) else p)
  else m ++ [(k, v)]

/-- The first-pass loop over one entity: for each group, for each of
its names in order, store the shared record under the trimmed name. -/
def buildPins (groups : List InterfaceGroup) : List (String × PortInfo) :=
  groups.foldl
    (fun m g => g.names.foldl (fun m2 p => insertPin m2 (jsTrimStr p) (infoOf g)) m) []

/-- `Object.keys` of the pin table: keys in insertion order. -/
def pinKeys (m : List (String × PortInfo)) : List String := m.map (·.1)

/-- First occurrence of each name in order, skipping names already in
`seen`: the key order produced by repeated JS object assignment. -/
def firstSeenFrom (seen : List String) : List String → List String
  | [] => []
  | x :: xs => if x ∈ seen then firstSeenFrom seen xs else x :: firstSeenFrom (seen ++ [x]) xs

/-! ## Directive text matching (the regular expressions of the second
pass, modelled on char lists with JS regex semantics) -/

/-- `text.match(/^\S+/)?.[0]`: the leading run of non-whitespace
characters, `none` for an empty text or one starting with whitespace
(the `switch` then takes the default branch). -/
def firstTok (t : String) : Option String :=
  let w := t.toList.takeWhile (fun c => !isWSChar c)
  if w = [] then none else some w.asString

/-- `text.split(' ').filter(Boolean)` of the `testbench` directive. -/
def splitSpaces (t : String) : List String :=
  ((splitChar ' ' t.toList).map List.asString).filter (· ≠ "")

/-- `text.match(/^sync \(([^)]+)\)/)?.[1]`: anchored at the start, a
literal `sync (`, then one or more non-`)` characters (the capture),
then `)`. -/
def matchSyncClk (t : String) : Option String :=
  let l := t.toList
  if prefixOfList "sync (".toList l then
    let rest := l.drop 6
    let cap := rest.takeWhile (· ≠ ')')
    if cap ≠ [] ∧ cap.length < rest.length then some cap.asString else none
  else none

/-- No JS line terminators (what `.` refuses to match). -/
def noLineTerm (l : List Char) : Bool := l.all fun c => c ≠ '\n' && c ≠ '\r'

/-- Case-insensitive character match against a pattern character (the
pattern here is lowercase ASCII text). -/
def charCIeq (p c : Char) : Bool := c = p || (p.isLower && c.toNat + 32 = p.toNat)

/-- Case-insensitive prefix match of a lowercase pattern. -/
def ciHasPrefix : List Char → List Char → Bool
  | [], _ => true
  | _ :: _, [] => false
  | p :: ps, c :: cs => charCIeq p c && ciHasPrefix ps cs

/-- One attempt of `/\bevery (.+);$/i` at the current position: the
text from here must start (case-insensitively) with `every `, and the
remainder must be a non-empty capture without line terminators
followed by `;` at the very end of the string. -/
def everyDurHere (cur : List Char) : Option (List Char) :=
  if ciHasPrefix "every ".toList cur then
    let rest := cur.drop 6
    match rest.getLast? with
    | some lc =>
      if lc = ';' ∧ rest.length ≥ 2 ∧ noLineTerm rest.dropLast then some rest.dropLast
      else none
    | none => none
  else none

/-- Left-to-right scan for the first position where
`/\bevery (.+);$/i` matches; `prevWord` tracks whether the previous
character is a word character (the `\b` boundary requires it is not). -/
def everyDurScan (prevWord : Bool) : List Char → Option (List Char)
  | [] => none
  | c :: cs =>
    match (if prevWord then none else everyDurHere (c :: cs)) with
    | some cap => some cap
    | none => everyDurScan (isWordChar c) cs

/-- `text.match(/\bevery (.+);$/i)?.[1]`. -/
def matchEveryDur (t : String) : Option String :=
  (everyDurScan false t.toList).map List.asString

/-- `text.match(/^every \(([^)]+)\);$/)?.[1]`: fully anchored, a
non-empty run of non-`)` characters between `every (` and a final
`);`. -/
def matchEveryList (t : String) : Option String :=
  let l := t.toList
  if prefixOfList "every (".toList l then
    let rest := l.drop 7
    let cap := rest.takeWhile (· ≠ ')')
    if cap ≠ [] ∧ rest.drop cap.length = [')', ';'] then some cap.asString else none
  else none

/-- `text.match(/^set \((.+)\);$/)?.[1]`: fully anchored, a non-empty
capture without line terminators between `set (` and a final `);`. -/
def matchSetDefs (t : String) : Option String :=
  let l := t.toList
  if prefixOfList "set (".toList l then
    let rest := l.drop 5
    if rest.length ≥ 3 ∧ rest.drop (rest.length - 2) = [')', ';'] ∧
        noLineTerm (rest.take (rest.length - 2)) then
      some (rest.take (rest.length - 2)).asString
    else none
  else none

/-- The comma list of an `every` directive:
`src.split(',').filter(Boolean).map(i => i.trim())`. -/
def parseEveryNames (src : String) : List String :=
  (((splitChar ',' src.toList).map List.asString).filter (· ≠ "")).map jsTrimStr

/-! ## Second pass: directive state machine (src/index.js lines 117-228) -/

/-- The per-testbench generation state (JS object literal of line
118): target entity, testbench name, sync duration, clock signal. -/
structure GenState where
  entity : String
  testbench : String
  sync : String
  clock : String
deriving DecidableEq

/-- `defaultState` of src/index.js line 118. -/
def defaultState : GenState :=
  { entity := "", testbench := "", sync := "1 ns", clock := "" }

/-- The first-pass tables consumed by the second pass:
`entityClauses`, `entityPins` and `entityHeads`, keyed by entity name. -/
structure Tables where
  clauses : List (String × String)
  pins : List (String × List (String × PortInfo))
  heads : List (String × String)

/-- Error text for a failed `assert.ok(state)` (an `AssertionError`
aborts the whole run). -/
def assertStateMsg : String := "AssertionError: state"

/-- Error text for `Object.entries(undefined)` in the `begin` case
(an uncaught TypeError aborts the whole run). -/
def entriesCrashMsg : String := "TypeError: Object.entries of undefined"

/-- Error text for reading a property of an `undefined` pin table in
the `every` case. -/
def pinsCrashMsg : String := "TypeError: reading property of undefined pins"

/-- Error text for calling the `undefined` converter of an unknown
signal name in the `every` case. -/
def converterCrashMsg : String := "TypeError: n.converter is not a function"

/-- The new state built by the `testbench` directive (lines 137-142):
spread of `defaultState` with the parsed entity and derived testbench
name; missing words of the directive are JS `undefined` and coerce to
the text `undefined`. -/
def tbState (t : String) : GenState :=
  let parts := splitSpaces t
  let entity := jsStr parts[3]?
  { defaultState with
    entity := entity
    testbench :=
      if parts[1]? = some "tb" then entity ++ "_tb"
      else entity ++ "_tb_" ++ jsStr parts[1]? }

/-- The text appended by the `testbench` directive (line 143). -/
def tbOut (tbl : Tables) (t : String) : String :=
  jsStr (jsLookup tbl.clauses (tbState t).entity) ++ "\nentity " ++
    (tbState t).testbench ++ " is end;\n\n"

/-- The state update of the `sync` directive (lines 151-152): the sync
duration from `/\bevery (.+);$/i` with default `1 ns`, and the clock
signal from `/^sync \(([^)]+)\)/` with default the empty string. -/
def syncState (s : GenState) (t : String) : GenState :=
  { s with
    sync := jsOr (matchEveryDur t) "1 ns"
    clock := jsOr (matchSyncClk t) "" }

/-- The `dut` port-map body of the `begin` case (lines 172-175): pins
in table order, comma-separated. -/
def portMapBody (keys : List String) : String :=
  catStrs (keys.enum.map fun p => (if p.1 = 0 then "" else ", ") ++ p.2 ++ " => " ++ p.2)

/-- The text appended by the `begin` directive (lines 160-183) when
the pin table of the target entity exists. -/
def beginOutput (tbl : Tables) (s : GenState) (ps : List (String × PortInfo)) : String :=
  "architecture tb of " ++ s.testbench ++ " is\n" ++
  "component " ++ s.entity ++ " " ++ jsStr (jsLookup tbl.heads s.entity) ++ "\n" ++
  "end component;\n\n" ++
  catStrs (ps.map fun p =>
    "signal " ++ p.1 ++ " : " ++ p.2.type ++
      (if p.1 = s.clock then " := \x270\x27" else "") ++ ";\n") ++
  "signal tb_done : bit := \x270\x27;\n" ++
  "begin\n" ++
  "dut : " ++ s.entity ++ " port map(" ++ portMapBody (pinKeys ps) ++ ");\n\n" ++
  (if s.clock ≠ "" then
    s.clock ++ " <= not " ++ s.clock ++ " after 0.5 * " ++ s.sync ++
      " when tb_done = \x270\x27 else \x270\x27;\n\n"
  else "") ++
  "process\nbegin\n"

/-- One line of the `every` loop opening (line 193): open the loop for
the signal at position `p.1` and drive the signal to the converted
value of the loop variable. -/
def loopLine (p : Nat × (String × PortInfo)) : String :=
  "for i_" ++ natToStr p.1 ++ " in " ++ p.2.2.low ++ " to " ++ p.2.2.high ++ " loop\n" ++
  p.2.1 ++ " <= " ++ p.2.2.converter ("i_" ++ natToStr p.1) ++ ";\n"

/-- The fragment emitted by the `every` directive (lines 193-195) for
the resolved signal entries: all loop openings with their drives, one
wait, all loop closings, one blank line. -/
def everyFragment (entries : List (String × PortInfo)) (sync : String) : String :=
  catStrs (entries.enum.map loopLine) ++
  ("wait for " ++ sync ++ ";\n") ++
  catStrs (entries.map fun _ => "end loop;\n") ++ "\n"

/-- Resolution of the name list of an `every` directive against the
pin table: `none` as soon as one name is absent, in which case the JS
code calls the `undefined` converter and throws. -/
def resolveAll : List (String × Option PortInfo) → Option (List (String × PortInfo))
  | [] => some []
  | (nm, some v) :: rest => (resolveAll rest).map (fun l => (nm, v) :: l)
  | (_, none) :: _ => none

/-- The `every` case (lines 190-196) once the state and the pin table
are at hand: parse the signal list (default: every pin), look every
name up, and either emit the loop nest or crash on an unknown name. -/
def everyApply (s : GenState) (ps : List (String × PortInfo)) (t : String) :
    Except String String :=
  let src := jsOr (matchEveryList t) (joinComma (pinKeys ps))
  let names := parseEveryNames src
  match resolveAll (names.map fun nm => (nm, jsLookup ps nm)) with
  | some rs => Except.ok (everyFragment rs s.sync)
  | none => Except.error converterCrashMsg

/-- The text appended by the `set` directive (lines 203-205). -/
def setOutput (s : GenState) (t : String) : String :=
  let defs := jsOr (matchSetDefs t) ""
  catStrs ((((splitChar ';' defs.toList).map List.asString).filter (· ≠ "")).map
    fun d => jsTrimStr d ++ ";\n") ++
  "wait for " ++ s.sync ++ ";\n\n"

/-- The text appended by the `end` directive (lines 214-217). -/
def endOutput : String := "tb_done <= \x271\x27;\nwait;\nend process;\nend;\n\n"

/-- One iteration of the second-pass loop (lines 129-228) on a trimmed
directive text: the out-of-block skip guard of line 132, then the
switch on the first word.  The result is the new state and the text
appended to the output buffer, or an error when the iteration throws
(failed assertion or uncaught TypeError), which aborts the whole run. -/
def step (tbl : Tables) (st : Option GenState) (text : String) :
    Except String (Option GenState × String) :=
  if st = none ∧ startsWithStr "testbench " text = false then Except.ok (st, "")
  else
    match firstTok text with
    | none => Except.ok (st, "")
    | some w =>
      if w = "testbench" then
        Except.ok (some (tbState text), tbOut tbl text)
      else if w = "sync" then
        match st with
        | none => Except.error assertStateMsg
        | some s => Except.ok (some (syncState s text), "")
      else if w = "begin" then
        match st with
        | none => Except.error assertStateMsg
        | some s =>
          match jsLookup tbl.pins s.entity with
          | none => Except.error entriesCrashMsg
          | some ps => Except.ok (some s, beginOutput tbl s ps)
      else if w = "every" then
        match st with
        | none => Except.error assertStateMsg
        | some s =>
          match jsLookup tbl.pins s.entity with
          | none => Except.error pinsCrashMsg
          | some ps =>
            match everyApply s ps text with
            | Except.ok out => Except.ok (some s, out)
            | Except.error e => Except.error e
      else if w = "set" then
        match st with
        | none => Except.error assertStateMsg
        | some s => Except.ok (some s, setOutput s text)
      else if w = "end" ∨ w = "end;" then
        match st with
        | none => Except.error assertStateMsg
        | some _ => Except.ok (none, endOutput)
      else
        Except.ok (st, "")

/-- Empty first-pass tables (a source file with no entities). -/
def emptyTables : Tables := { clauses := [], pins := [], heads := [] }

/-! ## Output Composer (src/index.js line 240)

`output.replace(/\n{3,}/g, '\n\n').trim() + '\n'` -/

/-- Flush a pending run of `k` newlines as the regex replacement
leaves it: runs of three or more become exactly two. -/
def nlFlush (k : Nat) : List Char := List.replicate (min k 2) '\n'

/-- Collapse every maximal run of three or more newlines to two,
tracking the length of the pending newline run. -/
def collapseAux : Nat → List Char → List Char
  | k, [] => nlFlush k
  | k, c :: cs =>
    if c = '\n' then collapseAux (k + 1) cs
    else nlFlush k ++ c :: collapseAux 0 cs

/-- `output.replace(/\n{3,}/g, '\n\n')` on char lists. -/
def collapseNLRuns (l : List Char) : List Char := collapseAux 0 l

/-- The Output Composer: collapse long newline runs, trim, append one
trailing newline (line 240). -/
def composeOutput (s : String) : String :=
  (jsTrim (collapseNLRuns s.toList) ++ ['\n']).asString

/-! ## Semantics of the emitted `every` loop nest

To state what executing the emitted fragment does, the fragment is
also described structurally: `buildNest` is the loop nest the `every`
case prints (`renderNest` linearizes it to exactly the emitted text),
and `execNest` is the standard VHDL semantics of such a nest — a
`for` loop binds its variable to each domain value in turn and runs
its body.  `er lo hi` gives the number of iterations of a loop with
the textual bounds `lo`, `hi` (the bounds are symbolic expressions, so
the iteration count is a parameter of the semantics). -/

/-- The loop nest emitted for a signal list: each signal opens a loop
(variable `i_<position>`) whose body drives the signal and continues
with the nest of the remaining signals; the innermost body is the
single wait. -/
inductive Nest where
  | base (sync : String)
  | loop (idx : Nat) (name : String) (low high : String) (conv : String → String) (rest : Nest)

/-- The nest the `every` case emits for `entries`, numbering loop
variables from `i`. -/
def buildNest (i : Nat) (entries : List (String × PortInfo)) (sync : String) : Nest :=
  match entries with
  | [] => Nest.base sync
  | (nm, info) :: rest => Nest.loop i nm info.low info.high info.converter (buildNest (i + 1) rest sync)

/-- Linearization of a nest to VHDL text: loops close outermost-last. -/
def renderNest : Nest → String
  | Nest.base sync => "wait for " ++ sync ++ ";\n"
  | Nest.loop i nm lo hi conv rest =>
    "for i_" ++ natToStr i ++ " in " ++ lo ++ " to " ++ hi ++ " loop\n" ++
    nm ++ " <= " ++ conv ("i_" ++ natToStr i) ++ ";\n" ++
    renderNest rest ++ "end loop;\n"

/-- Events of executing a nest: driving a signal with a value
expression under a binding of the loop variables, or waiting. -/
inductive Ev where
  | assignEv (sig : String) (valExpr : String) (env : List (String × Nat))
  | waitEv (dur : String)
deriving DecidableEq

/-- `Ev.waitEv` test. -/
def isWaitEv : Ev → Bool
  | Ev.waitEv _ => true
  | _ => false

/-- `Ev.assignEv` test. -/
def isAssignEv : Ev → Bool
  | Ev.assignEv _ _ _ => true
  | _ => false

/-- Execution of a nest under loop-variable environment `env`: a loop
with textual bounds `lo`, `hi` iterates `er lo hi` times, binding its
variable to `0, 1, ...` (the converted value expression is evaluated
under that binding), driving the signal once per iteration and then
running the inner nest. -/
def execNest (er : String → String → Nat) (env : List (String × Nat)) : Nest → List Ev
  | Nest.base sync => [Ev.waitEv sync]
  | Nest.loop i nm lo hi conv rest =>
    (List.range (er lo hi)).flatMap fun j =>
      Ev.assignEv nm (conv ("i_" ++ natToStr i)) (("i_" ++ natToStr i, j) :: env) ::
        execNest er (("i_" ++ natToStr i, j) :: env) rest

/-- Number of iterations of every loop of a nest multiplied together:
the Cartesian-product size. -/
def nestDoms (er : String → String → Nat) : Nest → Nat
  | Nest.base _ => 1
  | Nest.loop _ _ lo hi _ rest => er lo hi * nestDoms er rest

/-- No three consecutive newlines occur, with `k` the length of the
newline run immediately before the list (analysis device for the
Output Composer). -/
def noTripleAux : Nat → List Char → Bool
  | _, [] => true
  | k, c :: cs =>
    if c = '\n' then decide (k + 1 ≤ 2) && noTripleAux (k + 1) cs
    else noTripleAux 0 cs

/-! ## Properties of the Output Composer (towards C9) -/

theorem noTripleAux_mono (l : List Char) :
    ∀ k j, j ≤ k → noTripleAux k l = true → noTripleAux j l = true := by
  induction l with
  | nil => intro k j _ _; rfl
  | cons c cs ih =>
    intro k j hjk h
    by_cases hc : c = '\n'
    · simp only [noTripleAux, hc, if_pos, Bool.and_eq_true, decide_eq_true_eq] at h ⊢
      exact ⟨by omega, ih (k + 1) (j + 1) (by omega) h.2⟩
    · simpa [noTripleAux, hc] using h

theorem noTriple_flush_cons (m : Nat) (c : Char) (rest : List Char)
    (hm : m ≤ 2) (hc : c ≠ '\n') (h : noTripleAux 0 rest = true) :
    noTripleAux 0 (List.replicate m '\n' ++ c :: rest) = true := by
  interval_cases m <;> simp [noTripleAux, hc, h]

theorem collapseAux_noTriple (l : List Char) :
    ∀ k, noTripleAux 0 (collapseAux k l) = true := by
  induction l with
  | nil =>
    intro k
    unfold collapseAux nlFlush
    have h2 : min k 2 ≤ 2 := Nat.min_le_right k 2
    interval_cases h : min k 2 <;> simp [noTripleAux]
  | cons c cs ih =>
    intro k
    by_cases hc : c = '\n'
    · simpa [collapseAux, hc] using ih (k + 1)
    · simp only [collapseAux, hc, if_neg, nlFlush]
      exact noTriple_flush_cons _ c _ (Nat.min_le_right k 2) hc (ih 0)

theorem collapseAux_eq_self (l : List Char) :
    ∀ k, k ≤ 2 → noTripleAux k l = true → collapseAux k l = List.replicate k '\n' ++ l := by
  induction l with
  | nil =>
    intro k hk _
    simp [collapseAux, nlFlush, Nat.min_eq_left hk]
  | cons c cs ih =>
    intro k hk h
    by_cases hc : c = '\n'
    · subst hc
      simp only [noTripleAux, if_pos, Bool.and_eq_true, decide_eq_true_eq] at h
      rw [collapseAux]
      simp only [if_pos]
      rw [ih (k + 1) h.1 h.2]
      simp [List.replicate_succ' (n := k)]
    · simp only [noTripleAux, hc, if_neg] at h
      rw [collapseAux]
      simp only [hc, if_neg, nlFlush, Nat.min_eq_left hk]
      rw [ih 0 (by omega) h]
      simp

theorem trimLeft_noTriple (l : List Char) (h : noTripleAux 0 l = true) :
    noTripleAux 0 (trimLeft l) = true := by
  induction l with
  | nil => exact h
  | cons c cs ih =>
    by_cases hws : isWSChar c
    · have hcs : noTripleAux 0 cs = true := by
        by_cases hc : c = '\n'
        · simp only [noTripleAux, hc, if_pos, Bool.and_eq_true] at h
          exact noTripleAux_mono cs 1 0 (by omega) h.2
        · simpa [noTripleAux, hc] using h
      simpa [trimLeft, List.dropWhile, hws] using ih hcs
    · simpa [trimLeft, List.dropWhile, hws] using h

theorem trimRight_noTriple (l : List Char) :
    ∀ k, noTripleAux k l = true → noTripleAux k (trimRight l) = true := by
  induction l with
  | nil => intro k h; exact h
  | cons c cs ih =>
    intro k h
    rw [trimRight]
    cases hr : trimRight cs with
    | nil =>
      by_cases hws : isWSChar c
      · simp [consTrimEnd, hws, noTripleAux]
      · have hc : c ≠ '\n' := by
          intro hh; exact hws (by simp [isWSChar, hh])
        simp [consTrimEnd, hws, noTripleAux, hc]
    | cons x xs =>
      by_cases hc : c = '\n'
      · simp only [noTripleAux, hc, if_pos, Bool.and_eq_true] at h
        have := ih (k + 1) h.2
        rw [hr] at this
        simp only [consTrimEnd, noTripleAux, hc, if_pos, Bool.and_eq_true]
        exact ⟨h.1, this⟩
      · simp only [noTripleAux, hc, if_neg] at h
        have := ih 0 h
        rw [hr] at this
        simp only [consTrimEnd, noTripleAux, hc, if_neg]
        exact this

theorem trimLeft_head (l : List Char) :
    trimLeft l = [] ∨ ∃ c cs, trimLeft l = c :: cs ∧ isWSChar c = false := by
  induction l with
  | nil => exact Or.inl rfl
  | cons c cs ih =>
    by_cases hws : isWSChar c
    · simpa [trimLeft, List.dropWhile, hws] using ih
    · exact Or.inr ⟨c, cs, by simp [trimLeft, List.dropWhile, hws], by simpa using hws⟩

theorem trimRight_head (l : List Char) :
    trimRight l = [] ∨ (trimRight l).head? = l.head? := by
  cases l with
  | nil => exact Or.inl rfl
  | cons c cs =>
    rw [trimRight]
    cases trimRight cs with
    | nil =>
      by_cases hws : isWSChar c
      · exact Or.inl (by simp [consTrimEnd, hws])
      · exact Or.inr (by simp [consTrimEnd, hws])
    | cons x xs => exact Or.inr (by simp [consTrimEnd])

theorem trimRight_last (l : List Char) :
    trimRight l = [] ∨ ∃ c, (trimRight l).getLast? = some c ∧ isWSChar c = false := by
  induction l with
  | nil => exact Or.inl rfl
  | cons c cs ih =>
    rw [trimRight]
    rcases ih with h0 | ⟨d, hd, hdws⟩
    · rw [h0]
      by_cases hws : isWSChar c
      · exact Or.inl (by simp [consTrimEnd, hws])
      · exact Or.inr ⟨c, by simp [consTrimEnd, hws], by simpa using hws⟩
    · have hne : trimRight cs ≠ [] := by
        intro hh; rw [hh] at hd; simp at hd
      rcases List.exists_cons_of_ne_nil hne with ⟨x, xs, hx⟩
      rw [hx] at hd ⊢
      exact Or.inr ⟨d, by rw [consTrimEnd, List.getLast?_cons_cons]; exact hd, hdws⟩

theorem noTriple_append_nl (l : List Char) :
    ∀ k c, noTripleAux k l = true → l.getLast? = some c → c ≠ '\n' →
      noTripleAux k (l ++ ['\n']) = true := by
  induction l with
  | nil => intro k c _ h; simp at h
  | cons x xs ih =>
    intro k c h hlast hc
    cases xs with
    | nil =>
      simp only [List.getLast?_singleton, Option.some.injEq] at hlast
      subst hlast
      simp [noTripleAux, hc]
    | cons y ys =>
      rw [List.getLast?_cons_cons] at hlast
      by_cases hx : x = '\n'
      · simp only [noTripleAux, hx, if_pos, Bool.and_eq_true] at h
        have := ih (k + 1) c h.2 hlast hc
        simp only [List.cons_append, noTripleAux, hx, if_pos, Bool.and_eq_true]
        exact ⟨h.1, this⟩
      · simp only [noTripleAux, hx, if_neg] at h
        have := ih 0 c h hlast hc
        simp only [List.cons_append, noTripleAux, hx, if_neg]
        exact this

theorem trimRight_append_nl (t : List Char) : trimRight (t ++ ['\n']) = trimRight t := by
  induction t with
  | nil => rfl
  | cons c cs ih =>
    rw [List.cons_append, trimRight, ih, trimRight]

theorem trimRight_eq_self (t : List Char) :
    ∀ c, t.getLast? = some c → isWSChar c = false → trimRight t = t := by
  induction t with
  | nil => intro c h; simp at h
  | cons x xs ih =>
    intro c hlast hws
    cases xs with
    | nil =>
      simp only [List.getLast?_singleton, Option.some.injEq] at hlast
      subst hlast
      simp [trimRight, consTrimEnd, hws]
    | cons y ys =>
      rw [List.getLast?_cons_cons] at hlast
      have hxs : trimRight (y :: ys) = y :: ys := ih c hlast hws
      rw [trimRight, hxs, consTrimEnd]

theorem jsTrim_noTriple (u : List Char) (h : noTripleAux 0 u = true) :
    noTripleAux 0 (jsTrim u) = true :=
  trimRight_noTriple (trimLeft u) 0 (trimLeft_noTriple u h)

/-- The core of composer idempotence on char lists: re-running the
collapse-and-trim pipeline on a finished buffer (trimmed, no long
newline runs, one trailing newline) gives back the trimmed buffer. -/
theorem jsTrim_collapse_fixed (u : List Char) :
    jsTrim (collapseNLRuns (jsTrim (collapseNLRuns u) ++ ['\n'])) = jsTrim (collapseNLRuns u) := by
  set t := jsTrim (collapseNLRuns u) with ht
  have hnt : noTripleAux 0 t = true :=
    jsTrim_noTriple (collapseNLRuns u) (collapseAux_noTriple u 0)
  by_cases h0 : t = []
  · rw [h0]
    decide
  · rcases trimRight_last (trimLeft (collapseNLRuns u)) with hemp | ⟨d, hd, hdws⟩
    · exact absurd hemp (by rw [← jsTrim] at hemp; exact (h0 (ht.trans hemp)).elim)
    · have hd' : t.getLast? = some d := hd
      have hdnl : d ≠ '\n' := by
        intro hh; rw [hh] at hdws; simp [isWSChar] at hdws
      have hnt2 : noTripleAux 0 (t ++ ['\n']) = true :=
        noTriple_append_nl t 0 d hnt hd' hdnl
      have hcol : collapseNLRuns (t ++ ['\n']) = t ++ ['\n'] := by
        have := collapseAux_eq_self (t ++ ['\n']) 0 (by omega) hnt2
        simpa [collapseNLRuns] using this
      rw [hcol]
      -- head of t is not whitespace
      rcases List.exists_cons_of_ne_nil h0 with ⟨c, ts, htc⟩
      have hcws : isWSChar c = false := by
        rcases trimLeft_head (collapseNLRuns u) with hl0 | ⟨c2, cs2, hl, hws2⟩
        · exact absurd (by rw [ht, jsTrim, hl0]; rfl) h0
        · rcases trimRight_head (trimLeft (collapseNLRuns u)) with hr0 | hr
          · exact absurd (ht.trans hr0) h0
          · have : t.head? = some c2 := by rw [ht, jsTrim, hr, hl]; rfl
            rw [htc] at this
            simp only [List.head?_cons, Option.some.injEq] at this
            rw [this]
            exact hws2
      rw [jsTrim, htc, List.cons_append, trimLeft, List.dropWhile_cons]
      simp only [hcws, Bool.false_eq_true, if_neg, if_false]
      rw [← List.cons_append, ← htc, trimRight_append_nl]
      exact trimRight_eq_self t d hd' hdws

/-! ## Properties of the emitted `every` loop nest (towards C4) -/

theorem catStrs_const_comm (c : String) (es : List (String × PortInfo)) :
    catStrs (es.map fun _ => c) ++ c = c ++ catStrs (es.map fun _ => c) := by
  induction es with
  | nil => rw [List.map_nil, catStrs, String.empty_append, String.append_empty]
  | cons e es ih =>
    simp only [List.map_cons, catStrs]
    rw [String.append_assoc, ih]

theorem renderNest_buildNest (sync : String) (es : List (String × PortInfo)) :
    ∀ i, renderNest (buildNest i es sync) =
      catStrs ((List.enumFrom i es).map loopLine) ++ ("wait for " ++ sync ++ ";\n") ++
        catStrs (es.map fun _ => "end loop;\n") := by
  induction es with
  | nil =>
    intro i
    show renderNest (Nest.base sync) = _
    rw [renderNest, List.enumFrom, List.map_nil, catStrs, List.map_nil, catStrs,
      String.empty_append, String.append_empty]
  | cons e es ih =>
    intro i
    obtain ⟨nm, info⟩ := e
    show loopLine (i, (nm, info)) ++ renderNest (buildNest (i + 1) es sync) ++ "end loop;\n" = _
    rw [ih (i + 1)]
    show _ = catStrs (loopLine (i, (nm, info)) :: (List.enumFrom (i + 1) es).map loopLine) ++ _ ++
      catStrs ("end loop;\n" :: es.map fun _ => "end loop;\n")
    rw [catStrs, catStrs]
    simp only [String.append_assoc]
    rw [catStrs_const_comm]

theorem countP_flatMap_const {α : Type} (l : List α) (f : α → List Ev) (p : Ev → Bool)
    (c : Nat) (h : ∀ x ∈ l, (f x).countP p = c) :
    (l.flatMap f).countP p = l.length * c := by
  induction l with
  | nil => simp
  | cons x xs ih =>
    simp only [List.flatMap_cons, List.countP_append, h x (by simp), List.length_cons]
    rw [ih (fun y hy => h y (by simp [hy]))]
    ring

theorem execNest_waitCount (er : String → String → Nat) (n : Nest) :
    ∀ env, (execNest er env n).countP isWaitEv = nestDoms er n := by
  induction n with
  | base s => intro env; rfl
  | loop i nm lo hi conv rest ih =>
    intro env
    rw [execNest, nestDoms,
      countP_flatMap_const (List.range (er lo hi)) _ _ (nestDoms er rest) ?_,
      List.length_range]
    intro j _
    rw [List.countP_cons]
    simp [isWaitEv, ih]

theorem nestDoms_buildNest (er : String → String → Nat) (sync : String)
    (es : List (String × PortInfo)) :
    ∀ i, nestDoms er (buildNest i es sync) = (es.map fun e => er e.2.low e.2.high).prod := by
  induction es with
  | nil => intro i; rfl
  | cons e es ih =>
    intro i
    obtain ⟨nm, info⟩ := e
    show er info.low info.high * nestDoms er (buildNest (i + 1) es sync) = _
    rw [ih (i + 1), List.map_cons, List.prod_cons]

theorem filter_assign_pairs (a : Nat → Ev) (w : Ev)
    (ha : ∀ j, isAssignEv (a j) = true) (hw : isAssignEv w = false) (l : List Nat) :
    (l.flatMap fun j => [a j, w]).filter isAssignEv = l.map a := by
  induction l with
  | nil => rfl
  | cons x xs ih =>
    simp only [List.flatMap_cons, List.filter_append, List.map_cons, ← ih]
    simp [List.filter, ha x, hw]

/-! ## Properties of the first-pass pin table (towards C8) -/

theorem pinKeys_insertPin (m : List (String × PortInfo)) (k : String) (v : PortInfo) :
    pinKeys (insertPin m k v) = if k ∈ pinKeys m then pinKeys m else pinKeys m ++ [k] := by
  unfold insertPin
  by_cases h : m.any (fun p => p.1 = k) = true
  · rw [if_pos h]
    have hk : k ∈ pinKeys m := by
      simp only [List.any_eq_true, decide_eq_true_eq] at h
      rcases h with ⟨p, hp, hpk⟩
      exact hpk ▸ List.mem_map_of_mem (·.1) hp
    rw [if_pos hk]
    unfold pinKeys
    rw [List.map_map]
    refine List.map_congr_left ?_
    intro p _
    by_cases hpk : p.1 = k
    · simp [Function.comp, hpk]
    · simp [Function.comp, hpk]
  · rw [if_neg h]
    have hk : k ∉ pinKeys m := by
      intro hmem
      apply h
      simp only [pinKeys, List.mem_map] at hmem
      rcases hmem with ⟨p, hp, hpk⟩
      simp only [List.any_eq_true, decide_eq_true_eq]
      exact ⟨p, hp, hpk⟩
    rw [if_neg hk]
    unfold pinKeys
    rw [List.map_append]
    rfl

theorem pinKeys_addAll (ps : List (String × PortInfo)) :
    ∀ m, pinKeys (ps.foldl (fun m2 p => insertPin m2 p.1 p.2) m) =
      pinKeys m ++ firstSeenFrom (pinKeys m) (ps.map (·.1)) := by
  induction ps with
  | nil => intro m; simp [firstSeenFrom]
  | cons p rest ih =>
    intro m
    obtain ⟨k, v⟩ := p
    rw [List.foldl_cons, ih (insertPin m k v), pinKeys_insertPin]
    by_cases hk : k ∈ pinKeys m
    · rw [if_pos hk]
      simp [firstSeenFrom, hk]
    · rw [if_neg hk]
      simp [firstSeenFrom, hk, List.append_assoc]

theorem buildPins_eq_addAll (groups : List InterfaceGroup) :
    ∀ m, groups.foldl
        (fun m g => g.names.foldl (fun m2 p => insertPin m2 (jsTrimStr p) (infoOf g)) m) m =
      (groups.flatMap fun g => g.names.map fun p => (jsTrimStr p, infoOf g)).foldl
        (fun m2 p => insertPin m2 p.1 p.2) m := by
  induction groups with
  | nil => intro m; rfl
  | cons g gs ih =>
    intro m
    rw [List.foldl_cons, List.flatMap_cons, List.foldl_append, ih, List.foldl_map]

theorem resolveAll_map_none (ps : List (String × PortInfo)) (names : List String) (nm : String)
    (hmem : nm ∈ names) (hmiss : jsLookup ps nm = none) :
    resolveAll (names.map fun x => (x, jsLookup ps x)) = none := by
  induction names with
  | nil => simp at hmem
  | cons x xs ih =>
    rw [List.map_cons]
    cases hx : jsLookup ps x with
    | none => rfl
    | some v =>
      have hxs : nm ∈ xs := by
        rcases List.mem_cons.mp hmem with h | h
        · subst h; rw [hmiss] at hx; exact absurd hx (by simp)
        · exact h
      rw [resolveAll, ih hxs]
      rfl

/-- A std_logic input pin record, exactly as the first pass stores it
(used as a concrete fixture by witnesses). -/
def stdLogicPin : PortInfo :=
  infoOf { names := ["x"], mode := "in", type := "std_logic", range := none }

/-! ## Claims about the Type Bound Resolver (C6, C7) -/

/-- C6: the Type Bound Resolver is determined by the type name and the
bound values alone, independent of range direction: a one-bit scalar
type resolves to the domain 0..1 of size 2 whatever range node is
attached; `std_logic_vector` with range `7 downto 0` resolves to a
width expression equivalent to 8 and a domain of size 256; and for
every bound text `n` the ranges `(n downto 0)` and `(0 to n)` produce
identical bounds (identical width expressions, hence identical domain
sizes), for both vector types. -/
theorem c6_bounds_determinism :
    (∀ r, getTypeBounds "std_logic" r =
        { low := "0", high := "1",
          converter := fun i => "std_logic\x27val(" ++ i ++ ")" } ∧
      domainSize (getTypeBounds "std_logic" r) = some 2) ∧
    ((getTypeBounds "std_logic_vector" (some ⟨"7", "downto", "0"⟩)).high =
        "2 ** ((7) - (0) + 1) - 1" ∧
      evalArith "((7) - (0) + 1)" = some 8 ∧
      domainSize (getTypeBounds "std_logic_vector" (some ⟨"7", "downto", "0"⟩)) = some 256) ∧
    (∀ n : String,
      getTypeBounds "std_logic_vector" (some ⟨n, "downto", "0"⟩) =
        getTypeBounds "std_logic_vector" (some ⟨"0", "to", n⟩) ∧
      getTypeBounds "std_ulogic_vector" (some ⟨n, "downto", "0"⟩) =
        getTypeBounds "std_ulogic_vector" (some ⟨"0", "to", n⟩)) := by
  refine ⟨fun r => ⟨rfl, ?_⟩, ⟨by decide, by decide, by decide⟩,
    fun n => ⟨rfl, rfl⟩⟩
  show domainSize (scalarBounds "std_logic") = some 2
  decide

/-- C7: the Type Bound Resolver is total (a Lean function, never an
error): for an unrecognized leading type name, and for a vector type
without a range node, it returns the degraded bounds, whose low and
high are the empty string and whose converter returns the empty string
on every input. -/
theorem c7_degraded_bounds :
    (∀ type range, (∀ s ∈ knownTypeNames, leadingWordChars type ≠ some s) →
      getTypeBounds type range = emptyBounds) ∧
    (∀ type, (leadingWordChars type = some "std_logic_vector" ∨
        leadingWordChars type = some "std_ulogic_vector") →
      getTypeBounds type none = emptyBounds) ∧
    (emptyBounds.low = "" ∧ emptyBounds.high = "" ∧ ∀ i, emptyBounds.converter i = "") := by
  refine ⟨?_, ?_, rfl, rfl, fun _ => rfl⟩
  · intro type range h
    unfold getTypeBounds
    split
    · exact absurd ‹leadingWordChars type = some "bit"› (h "bit" (by simp [knownTypeNames]))
    · exact absurd ‹leadingWordChars type = some "std_logic"›
        (h "std_logic" (by simp [knownTypeNames]))
    · exact absurd ‹leadingWordChars type = some "std_ulogic"›
        (h "std_ulogic" (by simp [knownTypeNames]))
    · exact absurd ‹leadingWordChars type = some "std_ulogic_vector"›
        (h "std_ulogic_vector" (by simp [knownTypeNames]))
    · exact absurd ‹leadingWordChars type = some "std_logic_vector"›
        (h "std_logic_vector" (by simp [knownTypeNames]))
    · rfl
  · intro type h
    rcases h with h | h <;>
      · unfold getTypeBounds
        rw [h]
        rfl

/-- Witness for C7 at concrete inputs: the unknown type `integer` and
a rangeless `std_logic_vector` both resolve to the degraded bounds. -/
theorem c7_witness :
    getTypeBounds "integer" none = emptyBounds ∧
    getTypeBounds "std_logic_vector" none = emptyBounds :=
  ⟨c7_degraded_bounds.1 "integer" none (by decide),
   c7_degraded_bounds.2.1 "std_logic_vector" (Or.inl (by decide))⟩

/-! ## Claim about the Output Composer (C9) -/

/-- C9: the Output Composer (collapse runs of three or more line
breaks to two, trim, append one trailing line break) is idempotent:
applied to its own output it returns that output unchanged, for every
input buffer. -/
theorem c9_compose_idempotent (s : String) :
    composeOutput (composeOutput s) = composeOutput s := by
  unfold composeOutput
  have h : ((jsTrim (collapseNLRuns s.toList) ++ ['\n']).asString).toList
      = jsTrim (collapseNLRuns s.toList) ++ ['\n'] := rfl
  rw [h, jsTrim_collapse_fixed]

/-! ## Claim about the `every` directive fragment (C4) -/

/-- C4: the fragment emitted by `every` for the resolved signal list
is exactly the linearization of a loop nest — one loop per signal in
left-to-right order, closing outermost-last, each loop body driving
its signal to the converted value of its loop variable, with the
single `wait for <syncDuration>` innermost.  Executing that nest
produces `D1 * ... * Dn` waits, where `Di` is the iteration count of
the i-th loop given by the bound semantics `er`; and for a single
signal of domain size `D` the execution trace is exactly `D`
assignments, pairwise distinct (each under a different binding of the
loop variable), each immediately followed by one wait. -/
theorem c4_every_nest (entries : List (String × PortInfo)) (sync : String)
    (er : String → String → Nat) :
    everyFragment entries sync = renderNest (buildNest 0 entries sync) ++ "\n" ∧
    (execNest er [] (buildNest 0 entries sync)).countP isWaitEv =
      (entries.map fun e => er e.2.low e.2.high).prod ∧
    (∀ nm (info : PortInfo), execNest er [] (buildNest 0 [(nm, info)] sync) =
      (List.range (er info.low info.high)).flatMap fun j =>
        [Ev.assignEv nm (info.converter "i_0") [("i_0", j)], Ev.waitEv sync]) ∧
    (∀ nm (info : PortInfo),
      ((execNest er [] (buildNest 0 [(nm, info)] sync)).filter isAssignEv).Nodup) := by
  have hsingle : ∀ nm (info : PortInfo), execNest er [] (buildNest 0 [(nm, info)] sync) =
      (List.range (er info.low info.high)).flatMap fun j =>
        [Ev.assignEv nm (info.converter "i_0") [("i_0", j)], Ev.waitEv sync] :=
    fun nm info => rfl
  refine ⟨?_, ?_, hsingle, ?_⟩
  · unfold everyFragment
    rw [renderNest_buildNest sync entries 0]
    rfl
  · rw [execNest_waitCount er _ [], nestDoms_buildNest er sync entries 0]
  · intro nm info
    rw [hsingle nm info,
      filter_assign_pairs (fun j => Ev.assignEv nm (info.converter "i_0") [("i_0", j)])
        (Ev.waitEv sync) (fun j => rfl) rfl]
    refine List.Nodup.map ?_ (List.nodup_range _)
    intro a b hab
    simpa using hab

/-! ## Claim about port order (C8) -/

/-- C8: the pin table built by the first pass lists port names in
exactly source declaration order — flattening the interface groups in
order and keeping each (trimmed) name at its first-seen left-to-right
position — and the emitted `dut` port map is rendered from exactly
that key order. -/
theorem c8_port_order (groups : List InterfaceGroup) :
    pinKeys (buildPins groups) =
      firstSeenFrom [] ((groups.flatMap fun g => g.names).map jsTrimStr) ∧
    portMapBody (pinKeys (buildPins groups)) =
      portMapBody (firstSeenFrom [] ((groups.flatMap fun g => g.names).map jsTrimStr)) := by
  have h : pinKeys (buildPins groups) =
      firstSeenFrom [] ((groups.flatMap fun g => g.names).map jsTrimStr) := by
    unfold buildPins
    rw [buildPins_eq_addAll groups [], pinKeys_addAll]
    have hmap : (groups.flatMap fun g => g.names.map fun p => (jsTrimStr p, infoOf g)).map
        (Prod.fst) = (groups.flatMap fun g => g.names).map jsTrimStr := by
      simp [List.map_flatMap, List.map_map, Function.comp_def]
    show pinKeys [] ++ firstSeenFrom (pinKeys [])
      ((groups.flatMap fun g => g.names.map fun p => (jsTrimStr p, infoOf g)).map (·.1)) = _
    rw [show pinKeys [] = [] from rfl, hmap, List.nil_append]
  exact ⟨h, congrArg portMapBody h⟩

/-! ## Claims about the directive state machine (C1, C2, C3, C5, C10) -/

/-- C1 (amended): a directive whose text does not start with
`testbench ` is silently skipped while no Generation State is active:
the iteration leaves the state absent, appends nothing and raises no
error, because the skip guard of line 132 runs before any
`assert.ok(state)` — so `begin`, `every`, `set` and `end` before any
`testbench` are no-ops, not fatal precondition failures. -/
theorem c1_out_of_block_skipped (tbl : Tables) (t : String)
    (h : startsWithStr "testbench " t = false) :
    step tbl none t = Except.ok (none, "") := by
  unfold step
  rw [if_pos ⟨rfl, h⟩]

/-- C1 counterexample: processing `every (a);` while no Generation
State is active does not abort the run — the result is a successful
no-op, not an error. -/
theorem c1_counterexample :
    step emptyTables none "every (a);" = Except.ok (none, "") := rfl

/-- Witness for the amended C1: a concrete `set` directive before any
`testbench` is skipped without failure. -/
theorem c1_witness :
    step emptyTables none "set (x <= \x271\x27);" = Except.ok (none, "") :=
  c1_out_of_block_skipped emptyTables "set (x <= \x271\x27);" (by decide)

/-- C2 (amended): when the explicit signal list of an `every`
directive names a signal absent from the entity pin table, the state
machine does not proceed with an empty converter: the lookup leaves
the converter `undefined`, the loop template calls it, and the
resulting uncaught TypeError aborts the run with no fragment
emitted. -/
theorem c2_unknown_signal_crashes (tbl : Tables) (s : GenState) (t : String)
    (ps : List (String × PortInfo)) (src nm : String)
    (hw : firstTok t = some "every")
    (hps : jsLookup tbl.pins s.entity = some ps)
    (hsrc : matchEveryList t = some src) (hne : src ≠ "")
    (hnm : nm ∈ parseEveryNames src)
    (hmiss : jsLookup ps nm = none) :
    step tbl (some s) t = Except.error converterCrashMsg := by
  have happ : everyApply s ps t = Except.error converterCrashMsg := by
    unfold everyApply
    rw [hsrc]
    show (match resolveAll ((parseEveryNames (jsOr (some src) (joinComma (pinKeys ps)))).map
      fun nm2 => (nm2, jsLookup ps nm2)) with
      | some rs => Except.ok (everyFragment rs s.sync)
      | none => Except.error converterCrashMsg) = _
    rw [show jsOr (some src) (joinComma (pinKeys ps)) = src by simp [jsOr, hne]]
    rw [resolveAll_map_none ps _ nm hnm hmiss]
  unfold step
  rw [if_neg (by rintro ⟨h1, _⟩; exact absurd h1 (Option.some_ne_none s))]
  rw [hw]
  simp only [String.reduceEq, if_neg, if_false, reduceIte]
  rw [hps]
  show (match everyApply s ps t with
    | Except.ok out => Except.ok (some s, out)
    | Except.error e => Except.error e) = _
  rw [happ]

/-- C2 counterexample: the entity `e` has the single pin `a`; the
directive `every (b);` names the unknown signal `b`, and the run
aborts with the converter TypeError instead of emitting a vacuous
loop body. -/
theorem c2_counterexample :
    step { clauses := [], heads := [], pins := [("e", [("a", stdLogicPin)])] }
        (some ⟨"e", "e_tb", "1 ns", ""⟩) "every (b);" =
      Except.error converterCrashMsg := rfl

/-- Witness for the amended C2 at a different concrete input: entity
`e2` with pin `x`, directive `every (y);`. -/
theorem c2_witness :
    step { clauses := [], heads := [], pins := [("e2", [("x", stdLogicPin)])] }
        (some ⟨"e2", "e2_tb", "1 ns", ""⟩) "every (y);" =
      Except.error converterCrashMsg :=
  c2_unknown_signal_crashes _ ⟨"e2", "e2_tb", "1 ns", ""⟩ "every (y);"
    [("x", stdLogicPin)] "y" "y" (by decide) rfl (by decide) (by decide) (by decide) rfl

/-- C3 (amended): a `sync every <dur>;` directive with no
parenthesized clock sets `syncDuration` from the duration match and
also RESETS `clockSignal` to the empty string (line 152 assigns it
unconditionally), discarding a clock configured by an earlier
`sync (<clk>) every <dur>;` of the same block; the rest of the state
is unchanged. -/
theorem c3_sync_resets_clock (tbl : Tables) (s : GenState) (t : String)
    (hw : firstTok t = some "sync") (hclk : matchSyncClk t = none) :
    step tbl (some s) t = Except.ok (some (syncState s t), "") ∧
    (syncState s t).sync = jsOr (matchEveryDur t) "1 ns" ∧
    (syncState s t).clock = "" ∧
    (syncState s t).entity = s.entity ∧ (syncState s t).testbench = s.testbench := by
  refine ⟨?_, rfl, ?_, rfl, rfl⟩
  · unfold step
    rw [if_neg (by rintro ⟨h1, _⟩; exact absurd h1 (Option.some_ne_none s))]
    rw [hw]
    simp only [String.reduceEq, if_neg, if_false, reduceIte]
  · unfold syncState
    simp [hclk, jsOr]

/-- C3 counterexample: after `sync (clk) every 10 ns;` has set the
clock, the plain `sync every 2 ns;` yields a state whose clock is the
empty string, not the untouched `clk`. -/
theorem c3_counterexample :
    step emptyTables (some { defaultState with entity := "e", testbench := "e_tb" })
        "sync (clk) every 10 ns;" =
      Except.ok (some ⟨"e", "e_tb", "10 ns", "clk"⟩, "") ∧
    step emptyTables (some ⟨"e", "e_tb", "10 ns", "clk"⟩) "sync every 2 ns;" =
      Except.ok (some ⟨"e", "e_tb", "2 ns", ""⟩, "") ∧
    ("" : String) ≠ "clk" := ⟨rfl, rfl, by decide⟩

/-- Witness for the amended C3 at a concrete input. -/
theorem c3_witness :
    step emptyTables (some ⟨"e", "e_tb", "1 ns", "clk"⟩) "sync every 5 ns;" =
      Except.ok (some (syncState ⟨"e", "e_tb", "1 ns", "clk"⟩ "sync every 5 ns;"), "") ∧
    (syncState ⟨"e", "e_tb", "1 ns", "clk"⟩ "sync every 5 ns;").sync =
      jsOr (matchEveryDur "sync every 5 ns;") "1 ns" ∧
    (syncState ⟨"e", "e_tb", "1 ns", "clk"⟩ "sync every 5 ns;").clock = "" ∧
    (syncState ⟨"e", "e_tb", "1 ns", "clk"⟩ "sync every 5 ns;").entity = "e" ∧
    (syncState ⟨"e", "e_tb", "1 ns", "clk"⟩ "sync every 5 ns;").testbench = "e_tb" :=
  c3_sync_resets_clock emptyTables ⟨"e", "e_tb", "1 ns", "clk"⟩ "sync every 5 ns;"
    (by decide) (by decide)

/-- C5: every processed `testbench` directive rebuilds the Generation
State from `defaultState` (the spread of line 139): whatever the prior
state, the new state has sync duration `1 ns` and no clock signal, so
a second testbench block never inherits the previous block settings. -/
theorem c5_testbench_resets (tbl : Tables) (st : Option GenState) (t : String)
    (hw : firstTok t = some "testbench")
    (hg : st ≠ none ∨ startsWithStr "testbench " t = true) :
    step tbl st t = Except.ok (some (tbState t), tbOut tbl t) ∧
    (tbState t).sync = "1 ns" ∧ (tbState t).clock = "" := by
  refine ⟨?_, rfl, rfl⟩
  unfold step
  rw [if_neg ?g]
  · rw [hw]
    simp only [String.reduceEq, reduceIte]
  case g =>
    rintro ⟨h1, h2⟩
    rcases hg with hg | hg
    · exact hg h1
    · rw [hg] at h2; simp at h2

/-- Witness for C5: a second `testbench` directive processed over a
live state carrying sync `5 ns` and clock `clk` starts afresh with
`1 ns` and no clock. -/
theorem c5_witness :
    step emptyTables (some ⟨"prev", "prev_tb", "5 ns", "clk"⟩) "testbench tb of adder is" =
      Except.ok (some (tbState "testbench tb of adder is"),
        tbOut emptyTables "testbench tb of adder is") ∧
    (tbState "testbench tb of adder is").sync = "1 ns" ∧
    (tbState "testbench tb of adder is").clock = "" :=
  c5_testbench_resets emptyTables (some ⟨"prev", "prev_tb", "5 ns", "clk"⟩)
    "testbench tb of adder is" (by decide) (Or.inl (by simp))

/-- C10: a `testbench` directive naming an entity absent from the
metadata tables is not rejected at that directive: it creates a live
Generation State and appends the literal text `undefined` (the
missing clauses entry rendered by the template literal) before the
entity shell; a subsequent `begin` in that block then aborts with an
uncaught TypeError when `Object.entries` reads the missing pin
table. -/
theorem c10_missing_entity (tbl : Tables) (st : Option GenState) (t e : String)
    (hw : firstTok t = some "testbench")
    (hg : st ≠ none ∨ startsWithStr "testbench " t = true)
    (he : (splitSpaces t)[3]? = some e)
    (hcl : jsLookup tbl.clauses e = none)
    (hpins : jsLookup tbl.pins e = none) :
    step tbl st t = Except.ok (some (tbState t), tbOut tbl t) ∧
    (tbState t).entity = e ∧
    tbOut tbl t = "undefined\nentity " ++ (tbState t).testbench ++ " is end;\n\n" ∧
    step tbl (some (tbState t)) "begin" = Except.error entriesCrashMsg := by
  have hent : (tbState t).entity = e := by
    unfold tbState
    simp [he, jsStr]
  refine ⟨?_, hent, ?_, ?_⟩
  · unfold step
    rw [if_neg ?g]
    · rw [hw]
      simp only [String.reduceEq, reduceIte]
    case g =>
      rintro ⟨h1, h2⟩
      rcases hg with hg | hg
      · exact hg h1
      · rw [hg] at h2; simp at h2
  · unfold tbOut
    rw [hent, hcl]
    rfl
  · unfold step
    rw [if_neg (by rintro ⟨h1, _⟩; exact absurd h1 (Option.some_ne_none _))]
    rw [show firstTok "begin" = some "begin" from rfl]
    simp only [String.reduceEq, reduceIte]
    rw [hent, hpins]

/-- Witness for C10: `testbench tb of foo is` with empty metadata
tables builds a live state for the unknown entity `foo`, emits the
literal `undefined`, and the following `begin` aborts. -/
theorem c10_witness :
    step emptyTables none "testbench tb of foo is" =
      Except.ok (some (tbState "testbench tb of foo is"),
        tbOut emptyTables "testbench tb of foo is") ∧
    (tbState "testbench tb of foo is").entity = "foo" ∧
    tbOut emptyTables "testbench tb of foo is" =
      "undefined\nentity " ++ (tbState "testbench tb of foo is").testbench ++ " is end;\n\n" ∧
    step emptyTables (some (tbState "testbench tb of foo is")) "begin" =
      Except.error entriesCrashMsg :=
  c10_missing_entity emptyTables none "testbench tb of foo is" "foo"
    (by decide) (Or.inr (by decide)) (by decide) rfl rfl

end VhdlTbGen
